import Mathlib

/-!
# Verification of the Caliper trace-buffer core (TraceBufferChunk)

Shallow embedding of `src/services/trace/TraceBufferChunk.cpp`:
the snapshot encoding (`save_snapshot`), the admission test (`fits`),
the decode/deduplicate/emit pass (`flush`), and the chunk-chain
lifecycle (`reset`, `append`).

The byte buffer `m_data` is a `List Nat` of byte values; positions are
`Nat`.  The varint codec (`c-util/vlenc.h`) and the tagged-value codec
(`cali::Variant::pack`/`unpack`) are external to the visible source and
are modelled from the spec, as documented on each definition.  Machine
ids (`cali_id_t`) are 64-bit in the source; they are embedded as `Nat`,
with explicit `< 2 ^ 64` bounds in the statements where the width
matters (varint length bounds).
-/

/-- Fixed per-record cap on node and immediate entry counts
(`#define SNAP_MAX 80` in TraceBufferChunk.cpp). -/
def SNAP_MAX : Nat := 80

/-- Modelled from the spec: fuel-indexed worker for `vlenc_u64` of
`c-util/vlenc.h` (not under src/). Spec 4.1: base-128 continuation-bit
scheme, 7 payload bits per byte, high bit set means more bytes follow,
little-endian in magnitude order. Any value with fewer base-128 digits
than `fuel` is encoded exactly. -/
def vlencAux : Nat → Nat → List Nat
  | 0, _ => []
  | fuel + 1, n => if n < 128 then [n] else (n % 128 + 128) :: vlencAux fuel (n / 128)

/-- Modelled from the spec: `vlenc_u64` of `c-util/vlenc.h` (not under
src/): encode an unsigned integer as a base-128 varint, returning the
byte list written. `n + 1` units of fuel always suffice. -/
def vlenc_u64 (n : Nat) : List Nat := vlencAux (n + 1) n

/-- Modelled from the spec: core of `vldec_u64` of `c-util/vlenc.h`
(not under src/): decode a base-128 varint from the front of a byte
list, returning the value and the number of bytes consumed. -/
def vldec : List Nat → Nat × Nat
  | [] => (0, 0)
  | b :: rest =>
      if b < 128 then (b, 1)
      else ((vldec rest).1 * 128 + (b - 128), (vldec rest).2 + 1)

/-- Modelled from the spec: `vldec_u64(m_data + p, &p)` — decode a
varint from buffer `data` at position `p`, returning the value and the
advanced position. -/
def vldec_u64 (data : List Nat) (p : Nat) : Nat × Nat :=
  ((vldec (data.drop p)).1, p + (vldec (data.drop p)).2)

/-- Modelled from the spec: a tagged value (`cali::Variant`, not under
src/). Spec 4.1 and the glossary describe it as a typed scalar carried
as a type tag plus a payload; strings/blobs are referenced by a 64-bit
handle, consistent with the 22-byte worst-case bound quoted in `fits`.
-/
structure Variant where
  v_type : Nat
  v_uint : Nat
deriving DecidableEq, Repr

/-- Modelled from the spec: `Variant::pack` (not under src/): the
self-describing encoding of a tagged value, a varint type tag followed
by a varint payload. Spec 4.1 requires only that `pack`/`unpack`
round-trip and stay within the 22-byte worst case assumed by `fits`. -/
def Variant.pack (v : Variant) : List Nat :=
  vlenc_u64 v.v_type ++ vlenc_u64 v.v_uint

/-- Modelled from the spec: `Variant::unpack(m_data + p, &p, nullptr)`
(not under src/): inverse of `Variant.pack`, advancing the position. -/
def Variant.unpack (data : List Nat) (p : Nat) : Variant × Nat :=
  (⟨(vldec_u64 data p).1, (vldec_u64 data (vldec_u64 data p).2).1⟩,
   (vldec_u64 data (vldec_u64 data p).2).2)

/-- Modelled from the spec: a Snapshot (`cali::EntryList`, not under
src/). Spec 3: an ordered sequence of context-node ids plus two
parallel sequences of equal length carrying immediate attribute ids and
their tagged values. `s->size().n_nodes` is `node_ids.length` and
`s->size().n_immediate` is `immediate_attr.length`. -/
structure EntryList where
  node_ids : List Nat
  immediate_attr : List Nat
  immediate_data : List Variant
deriving DecidableEq, Repr

/-- The node-id entries actually encoded by `save_snapshot`: the first
`min n_nodes SNAP_MAX` entries (TraceBufferChunk.cpp lines 169, 177). -/
def keptNodes (s : EntryList) : List Nat :=
  s.node_ids.take (min s.node_ids.length SNAP_MAX)

/-- The immediate attribute ids actually encoded by `save_snapshot`:
the first `min n_immediate SNAP_MAX` entries (lines 170, 179). -/
def keptAttrs (s : EntryList) : List Nat :=
  s.immediate_attr.take (min s.immediate_attr.length SNAP_MAX)

/-- The immediate values actually encoded by `save_snapshot`: the first
`min n_immediate SNAP_MAX` entries of the parallel value sequence
(lines 170, 181). -/
def keptVals (s : EntryList) : List Variant :=
  s.immediate_data.take (min s.immediate_attr.length SNAP_MAX)

/-- Concatenated varint encodings of a list of ids (the body of the
`vlenc_u64` loops in `save_snapshot`, lines 177-180). -/
def encIds : List Nat → List Nat
  | [] => []
  | i :: is => vlenc_u64 i ++ encIds is

/-- Concatenated packed encodings of a list of tagged values (the
`pack` loop in `save_snapshot`, lines 181-182). -/
def encVals : List Variant → List Nat
  | [] => []
  | v :: vs => v.pack ++ encVals vs

/-- The full byte image of one encoded record, exactly as written by
`save_snapshot` (lines 172-182): clamped counts, node ids, immediate
attribute ids, then immediate tagged values. -/
def recordBytes (s : EntryList) : List Nat :=
  vlenc_u64 (min s.node_ids.length SNAP_MAX) ++
  vlenc_u64 (min s.immediate_attr.length SNAP_MAX) ++
  encIds (keptNodes s) ++ encIds (keptAttrs s) ++ encVals (keptVals s)

/-- Concatenated record images of a list of snapshots, in save order. -/
def recsBytes : List EntryList → List Nat
  | [] => []
  | s :: ss => recordBytes s ++ recsBytes ss

/-- Overwrite `bytes` into `data` starting at offset `pos` (the
`memcpy`-style effect of writing at `m_data + m_pos`). -/
def writeBytes (data : List Nat) (pos : Nat) (bytes : List Nat) : List Nat :=
  data.take pos ++ bytes ++ data.drop (pos + bytes.length)

/-- The per-chunk fields of `TraceBufferChunk`: owned byte buffer
(`m_data` of capacity `m_size`), write cursor `m_pos`, record counter
`m_nrec`. -/
structure ChunkRec where
  m_size : Nat
  m_data : List Nat
  m_pos : Nat
  m_nrec : Nat
deriving DecidableEq, Repr

/-- A `TraceBufferChunk` object: its own fields plus the chain of
successor chunks reachable through `m_next` (the singly linked list of
owned chunks; `[]` is the null pointer). -/
structure TraceBufferChunk extends ChunkRec where
  m_next : List ChunkRec
deriving DecidableEq, Repr

/-- A freshly constructed chunk: capacity `sz`, zero-filled buffer,
cursor and record count zero, no successor. -/
def TraceBufferChunk.empty (sz : Nat) : TraceBufferChunk :=
  { m_size := sz, m_data := List.replicate sz 0, m_pos := 0, m_nrec := 0, m_next := [] }

/-- `TraceBufferChunk::fits` (lines 188-200): worst-case size estimate
`20 + 10 * n_nodes + 32 * n_immediate` from the snapshot sizes alone
(no clamping, no encoding), admitted iff `m_pos + estimate < m_size`. -/
def TraceBufferChunk.fits (t : TraceBufferChunk) (s : EntryList) : Bool :=
  decide (t.m_pos + (20 + 10 * s.node_ids.length + 32 * s.immediate_attr.length) < t.m_size)

/-- `TraceBufferChunk::save_snapshot` (lines 162-185): no-op when the
snapshot has no nodes and no immediate entries; otherwise clamp both
counts to `SNAP_MAX`, encode counts, node ids, attribute ids and tagged
values at `m_pos`, advance `m_pos`, and increment `m_nrec`. -/
def TraceBufferChunk.save_snapshot (t : TraceBufferChunk) (s : EntryList) : TraceBufferChunk :=
  if s.node_ids.length + s.immediate_attr.length = 0 then t
  else
    { t with
      m_data := writeBytes t.m_data t.m_pos (recordBytes s),
      m_pos := t.m_pos + (recordBytes s).length,
      m_nrec := t.m_nrec + 1 }

/-- `TraceBufferChunk::reset` (lines 69-75) on the local fields: zero
the cursor and record count and clear the buffer. -/
def ChunkRec.reset (c : ChunkRec) : ChunkRec :=
  { c with m_pos := 0, m_nrec := 0, m_data := List.replicate c.m_size 0 }

/-- `TraceBufferChunk::reset`: resets the local fields only; the
`m_next` link is untouched. -/
def TraceBufferChunk.reset (t : TraceBufferChunk) : TraceBufferChunk :=
  { t with toChunkRec := t.toChunkRec.reset }

/-- `TraceBufferChunk::append` (lines 60-66): hand ownership of a new
chunk to the end of the chain. -/
def TraceBufferChunk.append (t : TraceBufferChunk) (c : ChunkRec) : TraceBufferChunk :=
  { t with m_next := t.m_next ++ [c] }

/-- Modelled from the spec: the external context tree and sink
(`cali::Caliper`, not under src/). Spec 6: `node` resolves an id to a
context node or fails; a resolved node's ancestor path (the node ids
`write_path` walks) is carried directly as the lookup result. -/
structure Caliper where
  node : Nat → Option (List Nat)

/-- One observable call into the external sink during `flush`: either
one ancestor-path write (`node->write_path(write_record)` for a
resolved id, carrying the id looked up and its ancestor ids), or one
snapshot-level record write (`write_record(record_descriptor, n, data)`
with the three parallel groups). -/
inductive Emission where
  | path (id : Nat) (ancestors : List Nat)
  | record (nodes : List Nat) (attrs : List Nat) (vals : List Variant)
deriving DecidableEq, Repr

/-- The node/attribute dedup loop of `flush` (lines 110-135): for each
decoded id, skip it if it is already in the written-node cache, else
look it up, emit its ancestor path when the lookup succeeds, and insert
the id into the cache either way. Returns the updated cache and the
emissions in order. -/
def processIds (cal : Caliper) : List Nat → List Nat → List Nat × List Emission
  | [], cache => (cache, [])
  | id :: rest, cache =>
      if id ∈ cache then processIds cal rest cache
      else
        ((processIds cal rest (id :: cache)).1,
         (match cal.node id with
           | some anc => [Emission.path id anc]
           | none => []) ++ (processIds cal rest (id :: cache)).2)

/-- The id-decoding loops of `flush` (lines 98-101): read `n` varints
from `data` starting at `p`, returning the ids and the final position.
-/
def decIds (data : List Nat) : Nat → Nat → List Nat × Nat
  | p, 0 => ([], p)
  | p, n + 1 =>
      ((vldec_u64 data p).1 :: (decIds data (vldec_u64 data p).2 n).1,
       (decIds data (vldec_u64 data p).2 n).2)

/-- The value-decoding loop of `flush` (lines 102-103): unpack `n`
tagged values from `data` starting at `p`. -/
def decVals (data : List Nat) : Nat → Nat → List Variant × Nat
  | p, 0 => ([], p)
  | p, n + 1 =>
      ((Variant.unpack data p).1 :: (decVals data (Variant.unpack data p).2 n).1,
       (decVals data (Variant.unpack data p).2 n).2)

/-- One iteration of the record loop of `flush` (lines 88-143): decode
the two counts (re-clamped to `SNAP_MAX`), the node ids, the attribute
ids and the values; run the dedup pass over node ids then attribute
ids; finally emit the snapshot-level record with the three parallel
groups. Returns the advanced position, the updated cache and the
emissions. -/
def flushRecord (cal : Caliper) (data : List Nat) (p : Nat) (cache : List Nat) :
    Nat × List Nat × List Emission :=
  let d1 := vldec_u64 data p
  let n_nodes := min d1.1 SNAP_MAX
  let d2 := vldec_u64 data d1.2
  let n_attr := min d2.1 SNAP_MAX
  let dn := decIds data d2.2 n_nodes
  let da := decIds data dn.2 n_attr
  let dv := decVals data da.2 n_attr
  let r1 := processIds cal dn.1 cache
  let r2 := processIds cal da.1 r1.1
  (dv.2, r2.1, r1.2 ++ r2.2 ++ [Emission.record dn.1 da.1 dv.1])

/-- The record loop of `flush`: run `flushRecord` `nrec` times,
threading the position and the cache, concatenating emissions. -/
def flushRecords (cal : Caliper) (data : List Nat) : Nat → Nat → List Nat → List Nat × List Emission
  | 0, _, cache => (cache, [])
  | r + 1, p, cache =>
      ((flushRecords cal data r (flushRecord cal data p cache).1
          (flushRecord cal data p cache).2.1).1,
       (flushRecord cal data p cache).2.2 ++
       (flushRecords cal data r (flushRecord cal data p cache).1
          (flushRecord cal data p cache).2.1).2)

/-- The chain walk of `flush` (lines 145-156): flush each chunk's local
records from position 0, accumulate `m_nrec` into the returned total,
and thread the cache into the successor chunks. -/
def flushChunks (cal : Caliper) : List ChunkRec → List Nat → Nat × List Nat × List Emission
  | [], cache => (0, cache, [])
  | c :: rest, cache =>
      (c.m_nrec + (flushChunks cal rest (flushRecords cal c.m_data c.m_nrec 0 cache).1).1,
       (flushChunks cal rest (flushRecords cal c.m_data c.m_nrec 0 cache).1).2.1,
       (flushRecords cal c.m_data c.m_nrec 0 cache).2 ++
       (flushChunks cal rest (flushRecords cal c.m_data c.m_nrec 0 cache).1).2.2)

/-- `TraceBufferChunk::flush` (lines 78-159): flush the whole chain
headed by this chunk, returning the total record count, the final
written-node cache, the emissions in order, and the final state of the
head object (local fields reset, every successor destroyed and the
`m_next` link cleared). -/
def TraceBufferChunk.flush (t : TraceBufferChunk) (cal : Caliper) (cache : List Nat) :
    Nat × List Nat × List Emission × TraceBufferChunk :=
  ((flushChunks cal (t.toChunkRec :: t.m_next) cache).1,
   (flushChunks cal (t.toChunkRec :: t.m_next) cache).2.1,
   (flushChunks cal (t.toChunkRec :: t.m_next) cache).2.2,
   { toChunkRec := t.toChunkRec.reset, m_next := [] })

/-- Count the ancestor-path emissions made for a given id. -/
def pathCount (N : Nat) : List Emission → Nat
  | [] => 0
  | Emission.path i _ :: es => (if i = N then 1 else 0) + pathCount N es
  | Emission.record _ _ _ :: es => pathCount N es

/-- The snapshot-level record emissions, in order, as their three
parallel groups. -/
def recordsOf : List Emission → List (List Nat × List Nat × List Variant)
  | [] => []
  | Emission.path _ _ :: es => recordsOf es
  | Emission.record a b c :: es => (a, b, c) :: recordsOf es

/-- Reference description of the cache and emissions that flushing one
decoded record produces: the dedup pass over the kept node ids, then
over the kept attribute ids, then the snapshot-level record. -/
def emitOne (cal : Caliper) (s : EntryList) (cache : List Nat) : List Nat × List Emission :=
  ((processIds cal (keptAttrs s) (processIds cal (keptNodes s) cache).1).1,
   (processIds cal (keptNodes s) cache).2 ++
   (processIds cal (keptAttrs s) (processIds cal (keptNodes s) cache).1).2 ++
   [Emission.record (keptNodes s) (keptAttrs s) (keptVals s)])

/-- Reference description of flushing a list of saved snapshots in
order, threading the cache. -/
def emitChain (cal : Caliper) : List EntryList → List Nat → List Nat × List Emission
  | [], cache => (cache, [])
  | s :: ss, cache =>
      ((emitChain cal ss (emitOne cal s cache).1).1,
       (emitOne cal s cache).2 ++ (emitChain cal ss (emitOne cal s cache).1).2)

/-! ### Concrete instances used by the witnesses -/

/-- A context tree in which every id resolves, with itself as its whole
ancestor path. -/
def calEx : Caliper := ⟨fun n => some [n]⟩

/-- A context tree in which no id resolves. -/
def calNone : Caliper := ⟨fun _ => none⟩

/-- The snapshot of the spec's concrete scenario: node ids 5, 9, 12 and
two immediate pairs. -/
def sEx : EntryList := ⟨[5, 9, 12], [2, 3], [⟨1, 7⟩, ⟨4, 120⟩]⟩

/-- A second snapshot sharing context-node id 5 with `sEx`. -/
def sEx2 : EntryList := ⟨[5, 7], [], []⟩

/-- A snapshot with `SNAP_MAX + 1` node ids. -/
def sBig : EntryList := ⟨List.range 81, [], []⟩

/-- The empty snapshot. -/
def sEmpty : EntryList := ⟨[], [], []⟩

/-! ### Varint codec round trip and length bounds -/

theorem vldec_vlencAux (rest : List Nat) :
    ∀ fuel n, n < fuel → vldec (vlencAux fuel n ++ rest) = (n, (vlencAux fuel n).length) := by
  intro fuel
  induction fuel with
  | zero => intro n hn; exact absurd hn (Nat.not_lt_zero n)
  | succ fuel ih =>
      intro n hn
      by_cases h : n < 128
      · simp [vlencAux, vldec, h]
      · have hdiv : n / 128 < fuel :=
          lt_of_lt_of_le (Nat.div_lt_self (by omega) (by omega)) (by omega)
        have ihd := ih (n / 128) hdiv
        have hb : ¬ (n % 128 + 128 < 128) := by omega
        simp only [vlencAux, if_neg h, List.cons_append, vldec, if_neg hb, ihd,
          List.length_cons]
        have hv : n / 128 * 128 + (n % 128 + 128 - 128) = n := by omega
        rw [hv]

theorem vldec_vlenc (n : Nat) (rest : List Nat) :
    vldec (vlenc_u64 n ++ rest) = (n, (vlenc_u64 n).length) :=
  vldec_vlencAux rest (n + 1) n (Nat.lt_succ_self n)

theorem vldec_u64_spec (data : List Nat) (p n : Nat) (rest : List Nat)
    (h : data.drop p = vlenc_u64 n ++ rest) :
    vldec_u64 data p = (n, p + (vlenc_u64 n).length) := by
  simp [vldec_u64, h, vldec_vlenc]

theorem drop_add_of_drop_eq {data : List Nat} {p : Nat} {bytes rest : List Nat}
    (h : data.drop p = bytes ++ rest) :
    data.drop (p + bytes.length) = rest := by
  rw [← List.drop_drop, h, List.drop_left]

theorem vlencAux_length_le : ∀ fuel n k, n < fuel → n < 128 ^ k → 0 < k →
    (vlencAux fuel n).length ≤ k := by
  intro fuel
  induction fuel with
  | zero => intro n k hn _ _; exact absurd hn (Nat.not_lt_zero n)
  | succ fuel ih =>
      intro n k hn hk hk0
      by_cases h : n < 128
      · simpa [vlencAux, h] using hk0
      · obtain ⟨j, rfl⟩ : ∃ j, k = j + 1 := ⟨k - 1, by omega⟩
        rcases Nat.eq_zero_or_pos j with rfl | hj
        · rw [pow_one] at hk; omega
        · have hdiv : n / 128 < fuel :=
            lt_of_lt_of_le (Nat.div_lt_self (by omega) (by omega)) (by omega)
          have hdk : n / 128 < 128 ^ j := by
            rw [Nat.div_lt_iff_lt_mul (by omega : 0 < 128), ← pow_succ]; exact hk
          have := ih (n / 128) j hdiv hdk hj
          simp only [vlencAux, if_neg h, List.length_cons]
          omega

theorem vlenc_length_le_ten (n : Nat) (h : n < 2 ^ 64) : (vlenc_u64 n).length ≤ 10 := by
  have h128 : n < 128 ^ 10 := lt_of_lt_of_le h (by norm_num)
  exact vlencAux_length_le (n + 1) n 10 (Nat.lt_succ_self n) h128 (by norm_num)

theorem vlenc_small (n : Nat) (h : n < 128) : vlenc_u64 n = [n] := by
  simp [vlenc_u64, vlencAux, h]

theorem unpack_spec (data : List Nat) (p : Nat) (v : Variant) (rest : List Nat)
    (h : data.drop p = v.pack ++ rest) :
    Variant.unpack data p = (v, p + v.pack.length) := by
  have h1 : data.drop p = vlenc_u64 v.v_type ++ (vlenc_u64 v.v_uint ++ rest) := by
    simpa [Variant.pack, List.append_assoc] using h
  have hv1 := vldec_u64_spec data p v.v_type (vlenc_u64 v.v_uint ++ rest) h1
  have h2 : data.drop (p + (vlenc_u64 v.v_type).length) = vlenc_u64 v.v_uint ++ rest :=
    drop_add_of_drop_eq h1
  have hv2 := vldec_u64_spec data (p + (vlenc_u64 v.v_type).length) v.v_uint rest h2
  simp [Variant.unpack, hv1, hv2, Variant.pack, List.length_append, Nat.add_assoc]

theorem decIds_spec (data : List Nat) :
    ∀ (ids : List Nat) (p : Nat) (rest : List Nat),
      data.drop p = encIds ids ++ rest →
      decIds data p ids.length = (ids, p + (encIds ids).length) := by
  intro ids
  induction ids with
  | nil => intro p rest _; simp [decIds, encIds]
  | cons i is ih =>
      intro p rest h
      have h1 : data.drop p = vlenc_u64 i ++ (encIds is ++ rest) := by
        simpa [encIds, List.append_assoc] using h
      have hv := vldec_u64_spec data p i (encIds is ++ rest) h1
      have h2 : data.drop (p + (vlenc_u64 i).length) = encIds is ++ rest :=
        drop_add_of_drop_eq h1
      have ihs := ih (p + (vlenc_u64 i).length) rest h2
      simp [decIds, hv, ihs, encIds, List.length_append, Nat.add_assoc]

theorem decVals_spec (data : List Nat) :
    ∀ (vs : List Variant) (p : Nat) (rest : List Nat),
      data.drop p = encVals vs ++ rest →
      decVals data p vs.length = (vs, p + (encVals vs).length) := by
  intro vs
  induction vs with
  | nil => intro p rest _; simp [decVals, encVals]
  | cons v vs ih =>
      intro p rest h
      have h1 : data.drop p = v.pack ++ (encVals vs ++ rest) := by
        simpa [encVals, List.append_assoc] using h
      have hv := unpack_spec data p v (encVals vs ++ rest) h1
      have h2 : data.drop (p + v.pack.length) = encVals vs ++ rest :=
        drop_add_of_drop_eq h1
      have ihs := ih (p + v.pack.length) rest h2
      simp [decVals, hv, ihs, encVals, List.length_append, Nat.add_assoc]

theorem keptNodes_length (s : EntryList) :
    (keptNodes s).length = min s.node_ids.length SNAP_MAX := by
  rw [keptNodes, List.length_take]
  exact min_eq_left (Nat.min_le_left _ _)

theorem keptAttrs_length (s : EntryList) :
    (keptAttrs s).length = min s.immediate_attr.length SNAP_MAX := by
  rw [keptAttrs, List.length_take]
  exact min_eq_left (Nat.min_le_left _ _)

theorem keptVals_length (s : EntryList)
    (hd : s.immediate_data.length = s.immediate_attr.length) :
    (keptVals s).length = min s.immediate_attr.length SNAP_MAX := by
  rw [keptVals, List.length_take, hd]
  exact min_eq_left (Nat.min_le_left _ _)

theorem flushRecord_spec (cal : Caliper) (data : List Nat) (p : Nat) (cache : List Nat)
    (s : EntryList) (rest : List Nat)
    (hd : s.immediate_data.length = s.immediate_attr.length)
    (h : data.drop p = recordBytes s ++ rest) :
    flushRecord cal data p cache =
      (p + (recordBytes s).length, (emitOne cal s cache).1, (emitOne cal s cache).2) := by
  have h0 : data.drop p =
      vlenc_u64 (min s.node_ids.length SNAP_MAX) ++
      (vlenc_u64 (min s.immediate_attr.length SNAP_MAX) ++
      (encIds (keptNodes s) ++ (encIds (keptAttrs s) ++ (encVals (keptVals s) ++ rest)))) := by
    simpa [recordBytes, List.append_assoc] using h
  have hv1 := vldec_u64_spec data p (min s.node_ids.length SNAP_MAX) _ h0
  have h1 := drop_add_of_drop_eq h0
  have hv2 := vldec_u64_spec data _ (min s.immediate_attr.length SNAP_MAX) _ h1
  have h2 := drop_add_of_drop_eq h1
  have hdn := decIds_spec data (keptNodes s) _ _ h2
  have h3 := drop_add_of_drop_eq h2
  have hda := decIds_spec data (keptAttrs s) _ _ h3
  have h4 := drop_add_of_drop_eq h3
  have hdv := decVals_spec data (keptVals s) _ _ h4
  rw [keptNodes_length] at hdn
  rw [keptAttrs_length] at hda
  rw [keptVals_length s hd] at hdv
  have hm1 : min (min s.node_ids.length SNAP_MAX) SNAP_MAX = min s.node_ids.length SNAP_MAX :=
    min_eq_left (Nat.min_le_right _ _)
  have hm2 : min (min s.immediate_attr.length SNAP_MAX) SNAP_MAX =
      min s.immediate_attr.length SNAP_MAX :=
    min_eq_left (Nat.min_le_right _ _)
  simp only [flushRecord, hv1, hm1, hm2, hv2, hdn, hda, hdv, emitOne]
  simp [recordBytes, List.length_append, Nat.add_assoc]

theorem flushRecords_spec (cal : Caliper) (data : List Nat) :
    ∀ (ss : List EntryList) (p : Nat) (cache : List Nat) (rest : List Nat),
      (∀ s ∈ ss, s.immediate_data.length = s.immediate_attr.length) →
      data.drop p = recsBytes ss ++ rest →
      flushRecords cal data ss.length p cache = emitChain cal ss cache := by
  intro ss
  induction ss with
  | nil => intro p cache rest _ _; rfl
  | cons s ss ih =>
      intro p cache rest hpar h
      have h1 : data.drop p = recordBytes s ++ (recsBytes ss ++ rest) := by
        simpa [recsBytes, List.append_assoc] using h
      have hfr := flushRecord_spec cal data p cache s _ (hpar s (by simp)) h1
      have h2 := drop_add_of_drop_eq h1
      have ihs := ih (p + (recordBytes s).length) (emitOne cal s cache).1 rest
        (fun u hu => hpar u (by simp [hu])) h2
      simp [flushRecords, hfr, ihs, emitChain]

/-! ### Dedup pass and emission accounting -/

theorem pathCount_append (N : Nat) (a b : List Emission) :
    pathCount N (a ++ b) = pathCount N a + pathCount N b := by
  induction a with
  | nil => simp [pathCount]
  | cons e es ih =>
      cases e with
      | path i anc => simp [pathCount, ih]; omega
      | record x y z => simp [pathCount, ih]

theorem recordsOf_append (a b : List Emission) :
    recordsOf (a ++ b) = recordsOf a ++ recordsOf b := by
  induction a with
  | nil => simp [recordsOf]
  | cons e es ih =>
      cases e with
      | path i anc => simp [recordsOf, ih]
      | record x y z => simp [recordsOf, ih]

theorem processIds_cache_mem (cal : Caliper) :
    ∀ (ids cache : List Nat) (a : Nat),
      a ∈ (processIds cal ids cache).1 ↔ a ∈ ids ∨ a ∈ cache := by
  intro ids
  induction ids with
  | nil => intro cache a; simp [processIds]
  | cons i is ih =>
      intro cache a
      by_cases hic : i ∈ cache
      · rw [processIds, if_pos hic, ih]
        constructor
        · rintro (h | h)
          · exact Or.inl (List.mem_cons_of_mem i h)
          · exact Or.inr h
        · rintro (h | h)
          · rcases List.mem_cons.mp h with rfl | h
            · exact Or.inr hic
            · exact Or.inl h
          · exact Or.inr h
      · rw [processIds, if_neg hic]
        simp only [ih, List.mem_cons]
        constructor
        · rintro (h | (rfl | h))
          · exact Or.inl (Or.inr h)
          · exact Or.inl (Or.inl rfl)
          · exact Or.inr h
        · rintro ((rfl | h) | h)
          · exact Or.inr (Or.inl rfl)
          · exact Or.inl h
          · exact Or.inr (Or.inr h)

theorem processIds_pathCount (cal : Caliper) (N : Nat) :
    ∀ (ids cache : List Nat),
      pathCount N (processIds cal ids cache).2 =
        if N ∈ ids ∧ N ∉ cache ∧ (cal.node N).isSome then 1 else 0 := by
  intro ids
  induction ids with
  | nil => intro cache; simp [processIds, pathCount]
  | cons i is ih =>
      intro cache
      by_cases hic : i ∈ cache
      · rw [processIds, if_pos hic, ih]
        by_cases hNi : N = i
        · subst hNi
          simp [hic]
        · simp [List.mem_cons, hNi]
      · rw [processIds, if_neg hic]
        simp only [pathCount_append, ih]
        by_cases hNi : N = i
        · subst hNi
          cases hnode : cal.node N with
          | none => simp [pathCount, hnode, hic]
          | some anc => simp [pathCount, hnode, hic]
        · have hne : i ≠ N := fun h => hNi h.symm
          cases hnode : cal.node i with
          | none =>
              simp only [hnode, List.nil_append, pathCount]
              simp [List.mem_cons, hNi, Ne.symm hne]
          | some anc =>
              simp only [hnode, List.cons_append, List.nil_append, pathCount, if_neg hne]
              simp [List.mem_cons, hNi, Ne.symm hne]

theorem processIds_recordsOf (cal : Caliper) :
    ∀ (ids cache : List Nat), recordsOf (processIds cal ids cache).2 = [] := by
  intro ids
  induction ids with
  | nil => intro cache; simp [processIds, recordsOf]
  | cons i is ih =>
      intro cache
      by_cases hic : i ∈ cache
      · rw [processIds, if_pos hic]; exact ih cache
      · rw [processIds, if_neg hic]
        rw [recordsOf_append, ih]
        cases hnode : cal.node i with
        | none => simp [recordsOf]
        | some anc => simp [recordsOf]

/-! ### Chunk state after saves -/

theorem writeBytes_at_end (pre rest bytes : List Nat) :
    writeBytes (pre ++ rest) pre.length bytes = pre ++ bytes ++ rest.drop bytes.length := by
  have hdrop : (pre ++ rest).drop (pre.length + bytes.length) = rest.drop bytes.length := by
    rw [← List.drop_drop, List.drop_left]
  rw [writeBytes, List.take_left, hdrop]

theorem save_one (sz : Nat) (s : EntryList)
    (hne : s.node_ids.length + s.immediate_attr.length ≠ 0) :
    (TraceBufferChunk.empty sz).save_snapshot s =
      { m_size := sz,
        m_data := recordBytes s ++ List.replicate (sz - (recordBytes s).length) 0,
        m_pos := (recordBytes s).length, m_nrec := 1, m_next := [] } := by
  rw [TraceBufferChunk.save_snapshot, if_neg hne]
  simp [TraceBufferChunk.empty, writeBytes]

theorem save_two (sz : Nat) (s1 s2 : EntryList)
    (h1 : s1.node_ids.length + s1.immediate_attr.length ≠ 0)
    (h2 : s2.node_ids.length + s2.immediate_attr.length ≠ 0) :
    ((TraceBufferChunk.empty sz).save_snapshot s1).save_snapshot s2 =
      { m_size := sz,
        m_data := recordBytes s1 ++ recordBytes s2 ++
          List.replicate (sz - (recordBytes s1).length - (recordBytes s2).length) 0,
        m_pos := (recordBytes s1).length + (recordBytes s2).length,
        m_nrec := 2, m_next := [] } := by
  rw [save_one sz s1 h1]
  rw [TraceBufferChunk.save_snapshot, if_neg h2]
  have hw := writeBytes_at_end (recordBytes s1)
    (List.replicate (sz - (recordBytes s1).length) 0) (recordBytes s2)
  simp [hw]

theorem flush_single (cal : Caliper) (cache : List Nat) (c : ChunkRec) :
    TraceBufferChunk.flush ⟨c, []⟩ cal cache =
      (c.m_nrec, (flushRecords cal c.m_data c.m_nrec 0 cache).1,
       (flushRecords cal c.m_data c.m_nrec 0 cache).2, ⟨c.reset, []⟩) := by
  simp [TraceBufferChunk.flush, flushChunks]

/-! ### Encoded-size bounds -/

theorem encIds_length_le (ids : List Nat) (h : ∀ i ∈ ids, i < 2 ^ 64) :
    (encIds ids).length ≤ 10 * ids.length := by
  induction ids with
  | nil => simp [encIds]
  | cons i is ih =>
      have hi := vlenc_length_le_ten i (h i (by simp))
      have his := ih (fun j hj => h j (by simp [hj]))
      simp only [encIds, List.length_append, List.length_cons]
      omega

theorem pack_length_le (v : Variant) (h1 : v.v_type < 2 ^ 64) (h2 : v.v_uint < 2 ^ 64) :
    v.pack.length ≤ 20 := by
  have ha := vlenc_length_le_ten v.v_type h1
  have hb := vlenc_length_le_ten v.v_uint h2
  simp only [Variant.pack, List.length_append]
  omega

theorem encVals_length_le (vs : List Variant)
    (h : ∀ v ∈ vs, v.v_type < 2 ^ 64 ∧ v.v_uint < 2 ^ 64) :
    (encVals vs).length ≤ 20 * vs.length := by
  induction vs with
  | nil => simp [encVals]
  | cons v vs ih =>
      have hv := pack_length_le v (h v (by simp)).1 (h v (by simp)).2
      have hvs := ih (fun u hu => h u (by simp [hu]))
      simp only [encVals, List.length_append, List.length_cons]
      omega

theorem recordBytes_length_le (s : EntryList)
    (hids : ∀ i ∈ s.node_ids, i < 2 ^ 64)
    (hattrs : ∀ a ∈ s.immediate_attr, a < 2 ^ 64)
    (hvals : ∀ v ∈ s.immediate_data, v.v_type < 2 ^ 64 ∧ v.v_uint < 2 ^ 64) :
    (recordBytes s).length ≤
      20 + 10 * s.node_ids.length + 32 * s.immediate_attr.length := by
  have hc1 : (vlenc_u64 (min s.node_ids.length SNAP_MAX)).length = 1 := by
    rw [vlenc_small _ (lt_of_le_of_lt (Nat.min_le_right _ _) (by norm_num [SNAP_MAX]))]
    rfl
  have hc2 : (vlenc_u64 (min s.immediate_attr.length SNAP_MAX)).length = 1 := by
    rw [vlenc_small _ (lt_of_le_of_lt (Nat.min_le_right _ _) (by norm_num [SNAP_MAX]))]
    rfl
  have hn : (encIds (keptNodes s)).length ≤ 10 * s.node_ids.length := by
    have hb := encIds_length_le (keptNodes s)
      (fun i hi => hids i (List.take_subset _ _ hi))
    have hl : (keptNodes s).length ≤ s.node_ids.length := by
      rw [keptNodes_length]; exact Nat.min_le_left _ _
    omega
  have ha : (encIds (keptAttrs s)).length ≤ 10 * s.immediate_attr.length := by
    have hb := encIds_length_le (keptAttrs s)
      (fun i hi => hattrs i (List.take_subset _ _ hi))
    have hl : (keptAttrs s).length ≤ s.immediate_attr.length := by
      rw [keptAttrs_length]; exact Nat.min_le_left _ _
    omega
  have hv : (encVals (keptVals s)).length ≤ 20 * s.immediate_attr.length := by
    have hb := encVals_length_le (keptVals s)
      (fun v hv => hvals v (List.take_subset _ _ hv))
    have hl : (keptVals s).length ≤ s.immediate_attr.length := by
      rw [keptVals, List.length_take]
      exact le_trans (Nat.min_le_left _ _) (Nat.min_le_left _ _)
    omega
  simp only [recordBytes, List.length_append]
  omega

/-! ### Identities for snapshots within the cap -/

theorem keptNodes_of_le (s : EntryList) (h : s.node_ids.length ≤ SNAP_MAX) :
    keptNodes s = s.node_ids := by
  rw [keptNodes, min_eq_left h, List.take_length]

theorem keptAttrs_of_le (s : EntryList) (h : s.immediate_attr.length ≤ SNAP_MAX) :
    keptAttrs s = s.immediate_attr := by
  rw [keptAttrs, min_eq_left h, List.take_length]

theorem keptVals_of_le (s : EntryList) (h : s.immediate_attr.length ≤ SNAP_MAX)
    (hd : s.immediate_data.length = s.immediate_attr.length) :
    keptVals s = s.immediate_data := by
  rw [keptVals, min_eq_left h, ← hd, List.take_length]

/-! ### Flushing freshly saved chunks -/

theorem flush_after_save_one (cal : Caliper) (cache : List Nat) (sz : Nat) (s : EntryList)
    (hne : s.node_ids.length + s.immediate_attr.length ≠ 0)
    (hd : s.immediate_data.length = s.immediate_attr.length) :
    ((TraceBufferChunk.empty sz).save_snapshot s).flush cal cache =
      (1, (emitChain cal [s] cache).1, (emitChain cal [s] cache).2,
       ⟨⟨sz, List.replicate sz 0, 0, 0⟩, []⟩) := by
  rw [save_one sz s hne]
  rw [flush_single]
  have hdrop : (recordBytes s ++ List.replicate (sz - (recordBytes s).length) 0).drop 0 =
      recsBytes [s] ++ List.replicate (sz - (recordBytes s).length) 0 := by
    simp [recsBytes]
  have hfr := flushRecords_spec cal
    (recordBytes s ++ List.replicate (sz - (recordBytes s).length) 0)
    [s] 0 cache (List.replicate (sz - (recordBytes s).length) 0)
    (by intro u hu
        simp at hu
        subst hu
        exact hd) hdrop
  have hlen : ([s] : List EntryList).length = 1 := rfl
  rw [hlen] at hfr
  simp [hfr, ChunkRec.reset]

theorem flush_after_save_two (cal : Caliper) (cache : List Nat) (sz : Nat) (s1 s2 : EntryList)
    (h1 : s1.node_ids.length + s1.immediate_attr.length ≠ 0)
    (h2 : s2.node_ids.length + s2.immediate_attr.length ≠ 0)
    (hd1 : s1.immediate_data.length = s1.immediate_attr.length)
    (hd2 : s2.immediate_data.length = s2.immediate_attr.length) :
    (((TraceBufferChunk.empty sz).save_snapshot s1).save_snapshot s2).flush cal cache =
      (2, (emitChain cal [s1, s2] cache).1, (emitChain cal [s1, s2] cache).2,
       ⟨⟨sz, List.replicate sz 0, 0, 0⟩, []⟩) := by
  rw [save_two sz s1 s2 h1 h2]
  rw [flush_single]
  have hdrop : (recordBytes s1 ++ recordBytes s2 ++
      List.replicate (sz - (recordBytes s1).length - (recordBytes s2).length) 0).drop 0 =
      recsBytes [s1, s2] ++
        List.replicate (sz - (recordBytes s1).length - (recordBytes s2).length) 0 := by
    simp [recsBytes]
  have hfr := flushRecords_spec cal
    (recordBytes s1 ++ recordBytes s2 ++
      List.replicate (sz - (recordBytes s1).length - (recordBytes s2).length) 0)
    [s1, s2] 0 cache
    (List.replicate (sz - (recordBytes s1).length - (recordBytes s2).length) 0)
    (by intro u hu
        simp at hu
        rcases hu with rfl | rfl
        · exact hd1
        · exact hd2) hdrop
  have hlen : ([s1, s2] : List EntryList).length = 2 := rfl
  rw [hlen] at hfr
  simp only [List.append_assoc] at hfr
  simp [hfr, ChunkRec.reset]

/-! ### Cache monotonicity and record accounting across the chain -/

theorem processIds_cache_mono (cal : Caliper) (ids cache : List Nat) (a : Nat)
    (h : a ∈ cache) : a ∈ (processIds cal ids cache).1 :=
  (processIds_cache_mem cal ids cache a).mpr (Or.inr h)

theorem flushRecord_cache_mono (cal : Caliper) (data : List Nat) (p : Nat) (cache : List Nat)
    (a : Nat) (h : a ∈ cache) : a ∈ (flushRecord cal data p cache).2.1 := by
  dsimp only [flushRecord]
  exact processIds_cache_mono _ _ _ _ (processIds_cache_mono _ _ _ _ h)

theorem flushRecords_cache_mono (cal : Caliper) (data : List Nat) :
    ∀ (n p : Nat) (cache : List Nat) (a : Nat), a ∈ cache →
      a ∈ (flushRecords cal data n p cache).1 := by
  intro n
  induction n with
  | zero => intro p cache a h; exact h
  | succ n ih =>
      intro p cache a h
      dsimp only [flushRecords]
      exact ih _ _ a (flushRecord_cache_mono cal data p cache a h)

theorem flushChunks_cache_mono (cal : Caliper) :
    ∀ (cs : List ChunkRec) (cache : List Nat) (a : Nat), a ∈ cache →
      a ∈ (flushChunks cal cs cache).2.1 := by
  intro cs
  induction cs with
  | nil => intro cache a h; exact h
  | cons c rest ih =>
      intro cache a h
      dsimp only [flushChunks]
      exact ih _ a (flushRecords_cache_mono cal c.m_data c.m_nrec 0 cache a h)

theorem flushChunks_written (cal : Caliper) :
    ∀ (cs : List ChunkRec) (cache : List Nat),
      (flushChunks cal cs cache).1 = (cs.map ChunkRec.m_nrec).sum := by
  intro cs
  induction cs with
  | nil => intro cache; rfl
  | cons c rest ih => intro cache; simp [flushChunks, ih]

theorem flush_empty_chunk (cal : Caliper) (cache : List Nat) (sz : Nat) :
    (TraceBufferChunk.empty sz).flush cal cache =
      (0, cache, [], ⟨⟨sz, List.replicate sz 0, 0, 0⟩, []⟩) := by
  simp [TraceBufferChunk.flush, flushChunks, flushRecords, TraceBufferChunk.empty,
    ChunkRec.reset]

/-! ### The claims -/

/-- C1: Round trip — for every Snapshot with `n_nodes ≤ SNAP_MAX` and
`n_immediate ≤ SNAP_MAX`, `save_snapshot` into an empty chunk followed
by `flush` emits to the sink exactly one snapshot-level record carrying
the same node-id sequence, attribute-id sequence and tagged-value
sequence the Snapshot held, in order (and no record at all when the
Snapshot is empty, since then nothing was recorded). -/
theorem c1_round_trip (cal : Caliper) (cache : List Nat) (sz : Nat) (s : EntryList)
    (h1 : s.node_ids.length ≤ SNAP_MAX) (h2 : s.immediate_attr.length ≤ SNAP_MAX)
    (h3 : s.immediate_data.length = s.immediate_attr.length) :
    recordsOf (((TraceBufferChunk.empty sz).save_snapshot s).flush cal cache).2.2.1 =
      if s.node_ids.length + s.immediate_attr.length = 0 then []
      else [(s.node_ids, s.immediate_attr, s.immediate_data)] := by
  by_cases hne : s.node_ids.length + s.immediate_attr.length = 0
  · rw [if_pos hne, TraceBufferChunk.save_snapshot, if_pos hne, flush_empty_chunk]
    rfl
  · rw [if_neg hne, flush_after_save_one cal cache sz s hne h3]
    simp [emitChain, emitOne, recordsOf_append, processIds_recordsOf, recordsOf,
      keptNodes_of_le s h1, keptAttrs_of_le s h2, keptVals_of_le s h2 h3]

/-- C1 witness: the spec's concrete scenario snapshot round-trips
through an empty 1024-byte chunk. -/
theorem c1_round_trip_witness :
    sEx.node_ids.length ≤ SNAP_MAX ∧
    recordsOf (((TraceBufferChunk.empty 1024).save_snapshot sEx).flush calEx []).2.2.1 =
      [([5, 9, 12], [2, 3], [⟨1, 7⟩, ⟨4, 120⟩])] := by
  refine ⟨by decide, ?_⟩
  have h := c1_round_trip calEx [] 1024 sEx (by decide) (by decide) (by decide)
  simpa [sEx] using h

/-- C2: Admission soundness — if `fits` returns true then
`save_snapshot` leaves the write cursor within the chunk capacity, for
every chunk state; the id/value bounds record that snapshot ids and
payloads are 64-bit values in the source. -/
theorem c2_admission_soundness (t : TraceBufferChunk) (s : EntryList)
    (hids : ∀ i ∈ s.node_ids, i < 2 ^ 64)
    (hattrs : ∀ a ∈ s.immediate_attr, a < 2 ^ 64)
    (hvals : ∀ v ∈ s.immediate_data, v.v_type < 2 ^ 64 ∧ v.v_uint < 2 ^ 64)
    (hfit : t.fits s = true) :
    (t.save_snapshot s).m_pos ≤ (t.save_snapshot s).m_size := by
  have hlt : t.m_pos + (20 + 10 * s.node_ids.length + 32 * s.immediate_attr.length) <
      t.m_size := by
    simpa [TraceBufferChunk.fits] using hfit
  by_cases hne : s.node_ids.length + s.immediate_attr.length = 0
  · rw [TraceBufferChunk.save_snapshot, if_pos hne]
    omega
  · have hrb := recordBytes_length_le s hids hattrs hvals
    rw [TraceBufferChunk.save_snapshot, if_neg hne]
    show t.m_pos + (recordBytes s).length ≤ t.m_size
    omega

/-- C2 witness: the scenario snapshot fits an empty 1024-byte chunk and
saving it stays within capacity. -/
theorem c2_admission_soundness_witness :
    (TraceBufferChunk.empty 1024).fits sEx = true ∧
    ((TraceBufferChunk.empty 1024).save_snapshot sEx).m_pos ≤
      ((TraceBufferChunk.empty 1024).save_snapshot sEx).m_size :=
  ⟨by decide,
   c2_admission_soundness (TraceBufferChunk.empty 1024) sEx
     (by decide) (by decide) (by decide) (by decide)⟩

/-- C3 counterexample: the claim says the estimate clamps both counts
to `SNAP_MAX`; on a snapshot with 81 node ids and an empty chunk of
capacity 825 the claimed formula admits the snapshot
(`0 + 20 + 10·80 + 32·0 < 825`) while the code's `fits` — which does
not clamp — rejects it. -/
theorem c3_fits_counterexample :
    TraceBufferChunk.fits
      { m_size := 825, m_data := List.replicate 825 0, m_pos := 0, m_nrec := 0, m_next := [] }
      { node_ids := List.replicate 81 0, immediate_attr := [], immediate_data := [] }
      = false ∧
    (0 : Nat) + (20 + 10 * min (List.replicate 81 (0 : Nat)).length SNAP_MAX +
      32 * min ([] : List Nat).length SNAP_MAX) < 825 := by
  constructor
  · decide
  · decide

/-- C3 amended: `fits` returns true iff
`position + 20 + 10·n_nodes + 32·n_immediate < capacity`, with the raw
(unclamped) snapshot sizes; and the test reads only the two sizes, so
it never encodes (nor even inspects) the snapshot's entries. -/
theorem c3_fits_formula (t : TraceBufferChunk) (s u : EntryList)
    (hn : u.node_ids.length = s.node_ids.length)
    (ha : u.immediate_attr.length = s.immediate_attr.length) :
    (t.fits s = true ↔
      t.m_pos + (20 + 10 * s.node_ids.length + 32 * s.immediate_attr.length) < t.m_size) ∧
    t.fits u = t.fits s := by
  constructor
  · simp [TraceBufferChunk.fits]
  · simp [TraceBufferChunk.fits, hn, ha]

/-- C3 amended witness: at a concrete chunk and two snapshots of equal
sizes but different contents, the formula and the size-only dependence
hold. -/
theorem c3_fits_formula_witness :
    ((TraceBufferChunk.empty 1024).fits sEx = true ↔
      (TraceBufferChunk.empty 1024).m_pos +
        (20 + 10 * sEx.node_ids.length + 32 * sEx.immediate_attr.length) <
        (TraceBufferChunk.empty 1024).m_size) ∧
    (TraceBufferChunk.empty 1024).fits ⟨[90, 91, 92], [7, 8], []⟩ =
      (TraceBufferChunk.empty 1024).fits sEx :=
  c3_fits_formula (TraceBufferChunk.empty 1024) sEx ⟨[90, 91, 92], [7, 8], []⟩
    (by decide) (by decide)

/-- C4: Chain conservation — `flush` returns the combined record count
of the whole chain, and afterwards the head chunk has
`record_count = 0`, `position = 0` and no successor (the appended
chunks are destroyed). -/
theorem c4_chain_conservation (cal : Caliper) (cache : List Nat) (t : TraceBufferChunk) :
    (t.flush cal cache).1 = t.m_nrec + (t.m_next.map ChunkRec.m_nrec).sum ∧
    (t.flush cal cache).2.2.2.m_nrec = 0 ∧
    (t.flush cal cache).2.2.2.m_pos = 0 ∧
    (t.flush cal cache).2.2.2.m_next = [] := by
  refine ⟨?_, rfl, rfl, rfl⟩
  have h := flushChunks_written cal (t.toChunkRec :: t.m_next) cache
  simpa [TraceBufferChunk.flush] using h

/-- C5: Dedup idempotence — flushing a chunk holding two records that
both reference context-node id `N` (with `N` not in the caller's dedup
cache and resolvable in the context tree) emits `N`'s ancestor path
exactly once and emits exactly two snapshot-level records. -/
theorem c5_dedup_idempotence (cal : Caliper) (cache : List Nat) (sz : Nat)
    (s1 s2 : EntryList) (N : Nat) (anc : List Nat)
    (h1n : s1.node_ids.length ≤ SNAP_MAX) (h2n : s2.node_ids.length ≤ SNAP_MAX)
    (hd1 : s1.immediate_data.length = s1.immediate_attr.length)
    (hd2 : s2.immediate_data.length = s2.immediate_attr.length)
    (hN1 : N ∈ s1.node_ids) (hN2 : N ∈ s2.node_ids)
    (hc : N ∉ cache) (hres : cal.node N = some anc) :
    pathCount N
      ((((TraceBufferChunk.empty sz).save_snapshot s1).save_snapshot s2).flush
        cal cache).2.2.1 = 1 ∧
    (recordsOf
      ((((TraceBufferChunk.empty sz).save_snapshot s1).save_snapshot s2).flush
        cal cache).2.2.1).length = 2 := by
  have hne1 : s1.node_ids.length + s1.immediate_attr.length ≠ 0 := by
    have := List.length_pos.mpr (List.ne_nil_of_mem hN1); omega
  have hne2 : s2.node_ids.length + s2.immediate_attr.length ≠ 0 := by
    have := List.length_pos.mpr (List.ne_nil_of_mem hN2); omega
  rw [flush_after_save_two cal cache sz s1 s2 hne1 hne2 hd1 hd2]
  have hkn1 : keptNodes s1 = s1.node_ids := keptNodes_of_le s1 h1n
  have hmemA1 : N ∈ (processIds cal (keptNodes s1) cache).1 :=
    (processIds_cache_mem cal _ cache N).mpr (Or.inl (by rw [hkn1]; exact hN1))
  have hmemB1 : N ∈ (processIds cal (keptAttrs s1)
      (processIds cal (keptNodes s1) cache).1).1 :=
    processIds_cache_mono cal _ _ N hmemA1
  have hmemA2 : N ∈ (processIds cal (keptNodes s2)
      (processIds cal (keptAttrs s1) (processIds cal (keptNodes s1) cache).1).1).1 :=
    processIds_cache_mono cal _ _ N hmemB1
  have pc1 : pathCount N (processIds cal (keptNodes s1) cache).2 = 1 := by
    rw [processIds_pathCount]
    simp [hkn1, hN1, hc, hres]
  have pc2 : pathCount N (processIds cal (keptAttrs s1)
      (processIds cal (keptNodes s1) cache).1).2 = 0 := by
    rw [processIds_pathCount]
    simp [hmemA1]
  have pc3 : pathCount N (processIds cal (keptNodes s2)
      (processIds cal (keptAttrs s1) (processIds cal (keptNodes s1) cache).1).1).2 = 0 := by
    rw [processIds_pathCount]
    simp [hmemB1]
  have pc4 : pathCount N (processIds cal (keptAttrs s2)
      (processIds cal (keptNodes s2)
        (processIds cal (keptAttrs s1)
          (processIds cal (keptNodes s1) cache).1).1).1).2 = 0 := by
    rw [processIds_pathCount]
    simp [hmemA2]
  constructor
  · simp [emitChain, emitOne, pathCount_append, pathCount, pc1, pc2, pc3, pc4]
  · simp [emitChain, emitOne, recordsOf_append, processIds_recordsOf, recordsOf]

/-- C5 witness: two concrete records sharing node id 5, flushed with an
empty cache, give one path emission for 5 and two record emissions. -/
theorem c5_dedup_idempotence_witness :
    pathCount 5
      ((((TraceBufferChunk.empty 1024).save_snapshot sEx).save_snapshot sEx2).flush
        calEx []).2.2.1 = 1 ∧
    (recordsOf
      ((((TraceBufferChunk.empty 1024).save_snapshot sEx).save_snapshot sEx2).flush
        calEx []).2.2.1).length = 2 :=
  c5_dedup_idempotence calEx [] 1024 sEx sEx2 5 [5]
    (by decide) (by decide) (by decide) (by decide) (by decide) (by decide)
    (by decide) rfl

/-- C6: Truncation law — for a Snapshot with `SNAP_MAX + k` node ids
(`k > 0`), the decoded record emitted by `flush` carries exactly the
first `SNAP_MAX` node ids (and the immediate sequences clamped the same
way), and a dropped id that does not also occur among the kept entries
appears in no sink emission: no ancestor path is emitted for it and it
is absent from the emitted record. -/
theorem c6_truncation_law (cal : Caliper) (cache : List Nat) (sz : Nat) (s : EntryList)
    (k x : Nat)
    (hn : s.node_ids.length = SNAP_MAX + k) (hk : 0 < k)
    (hd : s.immediate_data.length = s.immediate_attr.length)
    (hx1 : x ∈ s.node_ids.drop SNAP_MAX)
    (hx2 : x ∉ s.node_ids.take SNAP_MAX)
    (hx3 : x ∉ s.immediate_attr) :
    recordsOf (((TraceBufferChunk.empty sz).save_snapshot s).flush cal cache).2.2.1 =
      [(s.node_ids.take SNAP_MAX, keptAttrs s, keptVals s)] ∧
    pathCount x
      (((TraceBufferChunk.empty sz).save_snapshot s).flush cal cache).2.2.1 = 0 := by
  have hne : s.node_ids.length + s.immediate_attr.length ≠ 0 := by omega
  rw [flush_after_save_one cal cache sz s hne hd]
  have hkn : keptNodes s = s.node_ids.take SNAP_MAX := by
    rw [keptNodes, hn, Nat.min_eq_right (Nat.le_add_right _ _)]
  have pcn : pathCount x (processIds cal (keptNodes s) cache).2 = 0 := by
    rw [processIds_pathCount]
    simp [hkn, hx2]
  have pca : pathCount x (processIds cal (keptAttrs s)
      (processIds cal (keptNodes s) cache).1).2 = 0 := by
    rw [processIds_pathCount]
    have : x ∉ keptAttrs s := fun hmem => hx3 (List.take_subset _ _ hmem)
    simp [this]
  constructor
  · simp [emitChain, emitOne, recordsOf_append, processIds_recordsOf, recordsOf, hkn]
  · simp [emitChain, emitOne, pathCount_append, pathCount, pcn, pca]

/-- C6 witness: a snapshot with node ids 0..80; the record keeps ids
0..79 and id 80 is emitted nowhere. -/
theorem c6_truncation_law_witness :
    recordsOf (((TraceBufferChunk.empty 2048).save_snapshot sBig).flush calEx []).2.2.1 =
      [((List.range 81).take SNAP_MAX, keptAttrs sBig, keptVals sBig)] ∧
    pathCount 80
      (((TraceBufferChunk.empty 2048).save_snapshot sBig).flush calEx []).2.2.1 = 0 :=
  c6_truncation_law calEx [] 2048 sBig 1 80
    (by decide) (by decide) (by decide) (by decide) (by decide) (by decide)

/-- C7: Unresolvable reference handling — a decoded id `N` that is not
in the dedup cache and whose context-tree lookup fails gets no ancestor
path emission anywhere in the flush, is nevertheless inserted into the
cache, and processing continues: both records (here, a second record
also referencing `N`, which is not retried) are still emitted. -/
theorem c7_unresolvable_reference (cal : Caliper) (cache : List Nat) (sz : Nat)
    (s1 s2 : EntryList) (N : Nat)
    (h1n : s1.node_ids.length ≤ SNAP_MAX) (h2n : s2.node_ids.length ≤ SNAP_MAX)
    (hd1 : s1.immediate_data.length = s1.immediate_attr.length)
    (hd2 : s2.immediate_data.length = s2.immediate_attr.length)
    (hN1 : N ∈ s1.node_ids) (hN2 : N ∈ s2.node_ids)
    (hc : N ∉ cache) (hres : cal.node N = none) :
    pathCount N
      ((((TraceBufferChunk.empty sz).save_snapshot s1).save_snapshot s2).flush
        cal cache).2.2.1 = 0 ∧
    N ∈ ((((TraceBufferChunk.empty sz).save_snapshot s1).save_snapshot s2).flush
        cal cache).2.1 ∧
    (recordsOf
      ((((TraceBufferChunk.empty sz).save_snapshot s1).save_snapshot s2).flush
        cal cache).2.2.1).length = 2 := by
  have hne1 : s1.node_ids.length + s1.immediate_attr.length ≠ 0 := by
    have := List.length_pos.mpr (List.ne_nil_of_mem hN1); omega
  have hne2 : s2.node_ids.length + s2.immediate_attr.length ≠ 0 := by
    have := List.length_pos.mpr (List.ne_nil_of_mem hN2); omega
  rw [flush_after_save_two cal cache sz s1 s2 hne1 hne2 hd1 hd2]
  have hkn1 : keptNodes s1 = s1.node_ids := keptNodes_of_le s1 h1n
  have hmemA1 : N ∈ (processIds cal (keptNodes s1) cache).1 :=
    (processIds_cache_mem cal _ cache N).mpr (Or.inl (by rw [hkn1]; exact hN1))
  have hmemB1 : N ∈ (processIds cal (keptAttrs s1)
      (processIds cal (keptNodes s1) cache).1).1 :=
    processIds_cache_mono cal _ _ N hmemA1
  have hmemA2 : N ∈ (processIds cal (keptNodes s2)
      (processIds cal (keptAttrs s1) (processIds cal (keptNodes s1) cache).1).1).1 :=
    processIds_cache_mono cal _ _ N hmemB1
  have pc1 : pathCount N (processIds cal (keptNodes s1) cache).2 = 0 := by
    rw [processIds_pathCount]
    simp [hres]
  have pc2 : pathCount N (processIds cal (keptAttrs s1)
      (processIds cal (keptNodes s1) cache).1).2 = 0 := by
    rw [processIds_pathCount]
    simp [hmemA1]
  have pc3 : pathCount N (processIds cal (keptNodes s2)
      (processIds cal (keptAttrs s1) (processIds cal (keptNodes s1) cache).1).1).2 = 0 := by
    rw [processIds_pathCount]
    simp [hmemB1]
  have pc4 : pathCount N (processIds cal (keptAttrs s2)
      (processIds cal (keptNodes s2)
        (processIds cal (keptAttrs s1)
          (processIds cal (keptNodes s1) cache).1).1).1).2 = 0 := by
    rw [processIds_pathCount]
    simp [hmemA2]
  refine ⟨?_, ?_, ?_⟩
  · simp [emitChain, emitOne, pathCount_append, pathCount, pc1, pc2, pc3, pc4]
  · show N ∈ (emitChain cal [s1, s2] cache).1
    simp only [emitChain, emitOne]
    exact processIds_cache_mono cal _ _ N hmemA2
  · simp [emitChain, emitOne, recordsOf_append, processIds_recordsOf, recordsOf]

/-- C7 witness: with a context tree that resolves nothing, flushing two
records referencing id 5 emits no path for 5, caches 5, and still emits
both records. -/
theorem c7_unresolvable_reference_witness :
    pathCount 5
      ((((TraceBufferChunk.empty 1024).save_snapshot sEx).save_snapshot sEx2).flush
        calNone []).2.2.1 = 0 ∧
    5 ∈ ((((TraceBufferChunk.empty 1024).save_snapshot sEx).save_snapshot sEx2).flush
        calNone []).2.1 ∧
    (recordsOf
      ((((TraceBufferChunk.empty 1024).save_snapshot sEx).save_snapshot sEx2).flush
        calNone []).2.2.1).length = 2 :=
  c7_unresolvable_reference calNone [] 1024 sEx sEx2 5
    (by decide) (by decide) (by decide) (by decide) (by decide) (by decide)
    (by decide) rfl

/-- C8: Empty-snapshot no-op — saving a Snapshot with zero nodes and
zero immediate entries leaves the chunk object completely unchanged
(position, record count, buffer and the next link). -/
theorem c8_empty_snapshot_noop (t : TraceBufferChunk) (s : EntryList)
    (h1 : s.node_ids = []) (h2 : s.immediate_attr = []) :
    t.save_snapshot s = t := by
  rw [TraceBufferChunk.save_snapshot, if_pos (by simp [h1, h2])]

/-- C8 witness: saving the empty snapshot on a concrete chunk is the
identity. -/
theorem c8_empty_snapshot_noop_witness :
    (TraceBufferChunk.empty 4).save_snapshot sEmpty = TraceBufferChunk.empty 4 :=
  c8_empty_snapshot_noop (TraceBufferChunk.empty 4) sEmpty rfl rfl

/-- C9: Dedup cache monotonicity — every id present in the
caller-supplied cache before `flush` is still present in the cache
`flush` hands back, for every chunk chain; flush only inserts. -/
theorem c9_cache_monotonicity (cal : Caliper) (t : TraceBufferChunk) (cache : List Nat)
    (a : Nat) (h : a ∈ cache) : a ∈ (t.flush cal cache).2.1 :=
  flushChunks_cache_mono cal (t.toChunkRec :: t.m_next) cache a h

/-- C9 witness: id 3, present in the cache beforehand, survives a
concrete flush. -/
theorem c9_cache_monotonicity_witness :
    3 ∈ (((TraceBufferChunk.empty 1024).save_snapshot sEx).flush calEx [3]).2.1 :=
  c9_cache_monotonicity calEx ((TraceBufferChunk.empty 1024).save_snapshot sEx) [3] 3
    (by decide)

/-- C10: Empty-snapshot admission — for the empty Snapshot, `fits`
still demands the 20-byte margin (it returns true iff
`position + 20 < capacity`, hence false whenever
`position + 20 ≥ capacity`), even though `save_snapshot` of that same
Snapshot changes nothing; so a false `fits` does not imply that
`save_snapshot` would change the chunk. -/
theorem c10_empty_fits_margin (t : TraceBufferChunk) (s : EntryList)
    (h1 : s.node_ids = []) (h2 : s.immediate_attr = []) :
    (t.fits s = true ↔ t.m_pos + 20 < t.m_size) ∧ t.save_snapshot s = t := by
  constructor
  · simp [TraceBufferChunk.fits, h1, h2]
  · rw [TraceBufferChunk.save_snapshot, if_pos (by simp [h1, h2])]

/-- C10 witness: on a chunk of capacity 8, `fits` of the empty snapshot
is false while `save_snapshot` is the identity. -/
theorem c10_empty_fits_margin_witness :
    (TraceBufferChunk.empty 8).fits sEmpty = false ∧
    (((TraceBufferChunk.empty 8).fits sEmpty = true ↔
      (TraceBufferChunk.empty 8).m_pos + 20 < (TraceBufferChunk.empty 8).m_size) ∧
     (TraceBufferChunk.empty 8).save_snapshot sEmpty = TraceBufferChunk.empty 8) :=
  ⟨by decide, c10_empty_fits_margin (TraceBufferChunk.empty 8) sEmpty rfl rfl⟩
